import Mathlib

/- Verification of the gift ranking engine of ba_gift (src/app.py).

   The engine consumes a validated relation of (character, gift, effect) rows,
   a selection of characters and a gift-rarity lookup, and produces ranked and
   grouped gift lists.  The definitions below are a shallow embedding of the
   Python functions find_best_gifts, get_optimal_gifts_per_character,
   get_shared_gifts_reverse_lookup, get_generation_candidates and the inline
   useless-gift computation; the theorems settle the specification claims. -/

namespace BaGift

/-- Effectiveness tiers of a gift for a character: the validated relation only
contains the ordered enumeration 中 (medium) < 大 (large) < 特大 (huge). -/
inductive Effect where
  | medium
  | large
  | huge
deriving DecidableEq

/-- Numeric rank of an effect tier: mirrors both the ordered categorical
ranking of `effect_cat` and the dictionary `effect_order_dict`
(中 ↦ 0, 大 ↦ 1, 特大 ↦ 2) used by the reverse lookup. -/
def effectOrder : Effect → Nat
  | .medium => 0
  | .large => 1
  | .huge => 2

/-- One validated row of the gifts relation. -/
structure Row where
  character : String
  gift : String
  effect : Effect
deriving DecidableEq

/-- The validated in-memory relation (the DataFrame df after the
effect-validity filter of load_data). -/
abbrev Relation := List Row

/-- The gift-rarity lookup: `rarity_dict.get(g, 0)` is modelled as a total
function, gifts absent from the dictionary having value 0. -/
abbrev RarityMap := String → Int

/-- Code-point comparison of character lists, the primitive underlying
lexicographic string comparison. -/
def charListLeB : List Char → List Char → Bool
  | [], _ => true
  | _ :: _, [] => false
  | a :: as, b :: bs =>
    if a.toNat < b.toNat then true
    else if b.toNat < a.toNat then false
    else charListLeB as bs

/-- Ordinal (code-point lexicographic) string comparison, as used by Python
string comparison for tie-breaking. -/
def strLeB (a b : String) : Bool := charListLeB a.data b.data

/-- Lexicographic comparison of an integer component followed by a further
comparator, the building block of the engine's composite sort keys. -/
def intLexB {γ : Type} (le2 : γ → γ → Bool) (p q : Int × γ) : Bool :=
  decide (p.1 < q.1) || (decide (p.1 = q.1) && le2 p.2 q.2)

/-- Two-component sort key comparison: integer then string. -/
def lex1B : Int × String → Int × String → Bool := intLexB strLeB

/-- Three-component sort key comparison: two integers then a string. -/
def lex3B : Int × Int × String → Int × Int × String → Bool := intLexB (intLexB strLeB)

/-- Four-component sort key comparison: three integers then a string. -/
def lex4B : Int × Int × Int × String → Int × Int × Int × String → Bool :=
  intLexB (intLexB (intLexB strLeB))

/-- Ordered insertion of an element into a list. -/
def insertLe {α : Type} (le : α → α → Bool) (a : α) : List α → List α
  | [] => [a]
  | b :: l => if le a b then a :: b :: l else b :: insertLe le a l

/-- Sorting a list by a boolean comparator; models pandas sort_values and
Python sorted on the engine's total sort keys. -/
def sortLe {α : Type} (le : α → α → Bool) : List α → List α
  | [] => []
  | a :: l => insertLe le a (sortLe le l)

/-- First-occurrence deduplication with an accumulator of already seen
elements. -/
def uniqueAux {α : Type} [DecidableEq α] (seen : List α) : List α → List α
  | [] => []
  | a :: as => if a ∈ seen then uniqueAux seen as else a :: uniqueAux (a :: seen) as

/-- First-occurrence deduplication, modelling pandas Series.unique and Python
set construction. -/
def uniqueFirst {α : Type} [DecidableEq α] (l : List α) : List α := uniqueAux [] l

/-- Maximum effect rank over a list of rows (0 on the empty list); models
`effect_cat.max()`. -/
def maxEffect (l : List Row) : Nat := l.foldr (fun r m => max (effectOrder r.effect) m) 0

/-- Rows of the relation whose character belongs to the selection:
`df[df.character.isin(selected_characters)]`. -/
def selRows (df : Relation) (sel : List String) : List Row :=
  df.filter (fun r => decide (r.character ∈ sel))

/-- Rows of a list carrying a given gift (one gift group of a groupby). -/
def giftRows (l : List Row) (g : String) : List Row :=
  l.filter (fun r => decide (r.gift = g))

/-- Peak effect rank of a gift within a list of rows: the groupwise
`effect_cat.max()` of its gift group. -/
def giftPeak (l : List Row) (g : String) : Nat := maxEffect (giftRows l g)

/-- Number of rows carrying a gift within a list: the groupwise
`transform('count')` of the character column. -/
def giftRowCount (l : List Row) (g : String) : Nat := (giftRows l g).length

/-- Rows at their gift's peak effect within l:
`l[l.groupby('gift').effect_cat.transform(lambda x: x == x.max())]`. -/
def bestUseRows (l : List Row) : List Row :=
  l.filter (fun r => decide (effectOrder r.effect = giftPeak l r.gift))

/-- Distinct characters contending for a gift within a list of rows, in first
occurrence order. -/
def distinctCharacters (l : List Row) (g : String) : List String :=
  uniqueFirst ((giftRows l g).map (fun r => r.character))

/-- Competition of a gift: the groupwise `character.nunique()` of its gift
group. -/
def competition (l : List Row) (g : String) : Nat := (distinctCharacters l g).length

/-- Sort key of find_best_gifts: row count of the gift in the filtered subset
descending, effect descending, gift name ascending. -/
def fbKey (l : List Row) (r : Row) : Int × Int × String :=
  (-(giftRowCount l r.gift : Int), -(effectOrder r.effect : Int), r.gift)

/-- find_best_gifts: the selected characters' rows (no peak-tier filtering),
sorted by (num_chars descending, effect_cat descending, gift ascending). -/
def find_best_gifts (df : Relation) (sel : List String) : List Row :=
  if df = [] ∨ sel = [] then []
  else if selRows df sel = [] then []
  else sortLe (fun a b => lex3B (fbKey (selRows df sel) a) (fbKey (selRows df sel) b))
    (selRows df sel)

/-- Per-character result of get_optimal_gifts_per_character: the gift names of
the unique bucket and of the shared bucket, each in its sorted order. -/
structure Buckets where
  unique : List String
  shared : List String
deriving DecidableEq

/-- Sort key of the unique bucket: rarity descending, effect descending, gift
name ascending. -/
def uniqueKey (rar : RarityMap) (r : Row) : Int × Int × String :=
  (-(rar r.gift), -(effectOrder r.effect : Int), r.gift)

/-- Sort key of the shared bucket: rarity descending, competition ascending,
effect descending, gift name ascending. -/
def sharedKey (best : List Row) (rar : RarityMap) (r : Row) : Int × Int × Int × String :=
  (-(rar r.gift), (competition best r.gift : Int), -(effectOrder r.effect : Int), r.gift)

/-- The unique-bucket sort key expressed on gift names: on peak-tier rows the
row's effect equals its gift's peak within the selection's rows l, so the key
of a row is a function of its gift name alone. -/
def uniqueNameKey (l : List Row) (rar : RarityMap) (g : String) : Int × Int × String :=
  (-(rar g), -(giftPeak l g : Int), g)

/-- The shared-bucket sort key expressed on gift names (l being the
selection's rows). -/
def sharedNameKey (l : List Row) (rar : RarityMap) (g : String) : Int × Int × Int × String :=
  (-(rar g), (competition (bestUseRows l) g : Int), -(giftPeak l g : Int), g)

/-- The two sorted buckets of one character, computed from the peak-tier rows
best: competition 1 rows go to unique, competition above 1 rows to shared. -/
def bucketsFor (best : List Row) (rar : RarityMap) (c : String) : Buckets :=
  let charRows := best.filter (fun r => decide (r.character = c))
  { unique := (sortLe (fun a b => lex3B (uniqueKey rar a) (uniqueKey rar b))
      (charRows.filter (fun r => decide (competition best r.gift = 1)))).map (fun r => r.gift)
    shared := (sortLe (fun a b => lex4B (sharedKey best rar a) (sharedKey best rar b))
      (charRows.filter (fun r => decide (1 < competition best r.gift)))).map (fun r => r.gift) }

/-- get_optimal_gifts_per_character: empty mapping when the relation or the
selection is empty; otherwise one entry per selected character, with empty
buckets for all of them when no row matches the selection. -/
def get_optimal_gifts_per_character (df : Relation) (sel : List String) (rar : RarityMap) :
    List (String × Buckets) :=
  if df = [] ∨ sel = [] then []
  else if selRows df sel = [] then sel.map (fun c => (c, ⟨[], []⟩))
  else sel.map (fun c => (c, bucketsFor (bestUseRows (selRows df sel)) rar c))

/-- Lookup of a character's buckets in the result mapping, an absent character
giving empty buckets. -/
def lookupBuckets (m : List (String × Buckets)) (c : String) : Buckets :=
  match m.find? (fun p => decide (p.1 = c)) with
  | some p => p.2
  | none => ⟨[], []⟩

/-- One value of the shared-gift reverse lookup. -/
structure SharedEntry where
  characters : List String
  rarity : Int
  competition : Nat
  effect_order : Nat
deriving DecidableEq

/-- Rows of the peak-tier subset whose gift has competition above 1:
`best_use_df[best_use_df.competition > 1]`. -/
def sharedRowsOf (best : List Row) : List Row :=
  best.filter (fun r => decide (1 < competition best r.gift))

/-- The reverse-lookup entry of one shared gift: its contending characters
sorted ascending, its rarity value, its competition, and the effect rank of
the first of its rows. -/
def sharedEntryFor (best : List Row) (rar : RarityMap) (g : String) : SharedEntry :=
  { characters := sortLe strLeB (distinctCharacters (sharedRowsOf best) g)
    rarity := rar g
    competition := competition best g
    effect_order :=
      match giftRows (sharedRowsOf best) g with
      | [] => 0
      | r :: _ => effectOrder r.effect }

/-- Top-level sort key of the reverse lookup: rarity descending, competition
ascending, effect descending, gift name ascending. -/
def revKey (p : String × SharedEntry) : Int × Int × Int × String :=
  (-(p.2.rarity), (p.2.competition : Int), -(p.2.effect_order : Int), p.1)

/-- get_shared_gifts_reverse_lookup: one entry per shared gift, ordered by
revKey. -/
def get_shared_gifts_reverse_lookup (df : Relation) (sel : List String) (rar : RarityMap) :
    List (String × SharedEntry) :=
  if df = [] ∨ sel = [] then []
  else if selRows df sel = [] then []
  else if sharedRowsOf (bestUseRows (selRows df sel)) = [] then []
  else
    sortLe (fun p q => lex4B (revKey p) (revKey q))
      ((uniqueFirst ((sharedRowsOf (bestUseRows (selRows df sel))).map (fun r => r.gift))).map
        (fun g => (g, sharedEntryFor (bestUseRows (selRows df sel)) rar g)))

/-- Selected characters' rows whose gift has rarity value 0:
`filtered_df[filtered_df.gift.map(lambda x: rarity_dict.get(x, 0) == 0)]`. -/
def yellowRows (df : Relation) (sel : List String) (rar : RarityMap) : List Row :=
  (selRows df sel).filter (fun r => decide (rar r.gift = 0))

/-- The first row of a gift group attaining the group's peak effect:
groupwise `idxmax()` of the effect column. -/
def firstPeakRow (l : List Row) (g : String) : Option Row :=
  (giftRows l g).find? (fun r => decide (effectOrder r.effect = giftPeak l g))

/-- One representative row per gift of the rarity-0 subset, taken at the
gift's peak effect and listed in sorted gift order:
`yellow_gifts_df.loc[yellow_gifts_df.groupby('gift').effect_cat.idxmax()]`. -/
def genBestRows (df : Relation) (sel : List String) (rar : RarityMap) : List Row :=
  (sortLe strLeB (uniqueFirst ((yellowRows df sel rar).map (fun r => r.gift)))).filterMap
    (firstPeakRow (yellowRows df sel rar))

/-- The representative rows whose effect equals the global maximum over all
representatives. -/
def genTopRows (df : Relation) (sel : List String) (rar : RarityMap) : List Row :=
  (genBestRows df sel rar).filter
    (fun r => decide (effectOrder r.effect = maxEffect (genBestRows df sel rar)))

/-- Sort key of the generation candidates: row count descending, gift name
ascending. -/
def genKey (top : List Row) (r : Row) : Int × String :=
  (-(giftRowCount top r.gift : Int), r.gift)

/-- get_generation_candidates: distinct gift names of the top representative
rows, sorted by genKey. -/
def get_generation_candidates (df : Relation) (sel : List String) (rar : RarityMap) :
    List String :=
  if df = [] ∨ sel = [] then []
  else if selRows df sel = [] then []
  else if yellowRows df sel rar = [] then []
  else
    uniqueFirst ((sortLe (fun a b =>
        lex1B (genKey (genTopRows df sel rar) a) (genKey (genTopRows df sel rar) b))
      (genTopRows df sel rar)).map (fun r => r.gift))

/-- The two useless-gift lists: common sorted by (rarity descending, name
ascending), rare sorted ascending. -/
structure UselessGifts where
  common : List String
  rare : List String
deriving DecidableEq

/-- Sort key of the common useless gifts: rarity descending, name ascending. -/
def commonKey (rar : RarityMap) (g : String) : Int × String := (-(rar g), g)

/-- The inline useless-gift computation of the page body: universe minus the
favorite gifts of find_best_gifts, split by rarity tier 1 and sorted.  When
the relation or the selection is empty, find_best_gifts returns a columnless
frame and the column access result_df['gift'] raises KeyError before any
partition is built; that failure is modelled as none. -/
def useless_gifts (all_gifts : List String) (df : Relation) (sel : List String)
    (rar : RarityMap) : Option UselessGifts :=
  if df = [] ∨ sel = [] then none
  else
    let favorites := (find_best_gifts df sel).map (fun r => r.gift)
    let useless := (uniqueFirst all_gifts).filter (fun g => decide (g ∉ favorites))
    some ⟨sortLe (fun a b => lex1B (commonKey rar a) (commonKey rar b))
        (useless.filter (fun g => decide (rar g ≠ 1))),
      sortLe strLeB (useless.filter (fun g => decide (rar g = 1)))⟩

/-- Formalisation of the claimed generation-candidate computation, following
the claim's words rather than the code: gifts of rarity tier other than 1 are
eligible, all rows at each eligible gift's peak are kept, and the gifts at the
global peak are ranked by (distinct contending characters descending, gift
name ascending). -/
def claimedGenerationCandidates (df : Relation) (sel : List String) (rar : RarityMap) :
    List String :=
  let elig := (selRows df sel).filter (fun r => decide (rar r.gift ≠ 1))
  let peaks := elig.filter (fun r => decide (effectOrder r.effect = giftPeak elig r.gift))
  let top := peaks.filter (fun r => decide (effectOrder r.effect = maxEffect peaks))
  uniqueFirst ((sortLe (fun a b =>
      lex1B (-(competition top a.gift : Int), a.gift)
        (-(competition top b.gift : Int), b.gift)) top).map (fun r => r.gift))

/-- The engine's inputs viewed as a state threaded through query calls: the
relation snapshot and the rarity lookup. -/
structure EngineState where
  df : Relation
  rarity : RarityMap

/-- find_best_gifts run against the engine state. -/
def runFindBest (s : EngineState) (sel : List String) : List Row × EngineState :=
  (find_best_gifts s.df sel, s)

/-- get_optimal_gifts_per_character run against the engine state. -/
def runOptimal (s : EngineState) (sel : List String) :
    List (String × Buckets) × EngineState :=
  (get_optimal_gifts_per_character s.df sel s.rarity, s)

/-- get_shared_gifts_reverse_lookup run against the engine state. -/
def runReverse (s : EngineState) (sel : List String) :
    List (String × SharedEntry) × EngineState :=
  (get_shared_gifts_reverse_lookup s.df sel s.rarity, s)

/-- get_generation_candidates run against the engine state. -/
def runGeneration (s : EngineState) (sel : List String) : List String × EngineState :=
  (get_generation_candidates s.df sel s.rarity, s)

/- Infrastructure lemmas: comparators, sorting, deduplication, maxima. -/

theorem charListLeB_trans : ∀ (a b c : List Char), charListLeB a b = true →
    charListLeB b c = true → charListLeB a c = true
  | [], _, _, _, _ => rfl
  | _ :: _, [], _, h1, _ => by simp [charListLeB] at h1
  | _ :: _, _ :: _, [], _, h2 => by simp [charListLeB] at h2
  | x :: xs, y :: ys, z :: zs, h1, h2 => by
    simp only [charListLeB] at h1 h2 ⊢
    by_cases hyx : y.toNat < x.toNat
    · rw [if_neg (by omega), if_pos hyx] at h1
      exact absurd h1 (by simp)
    · by_cases hzy : z.toNat < y.toNat
      · rw [if_neg (by omega), if_pos hzy] at h2
        exact absurd h2 (by simp)
      · by_cases hxy : x.toNat < y.toNat
        · rw [if_pos (by omega)]
        · by_cases hyz : y.toNat < z.toNat
          · rw [if_pos (by omega)]
          · rw [if_neg hxy, if_neg hyx] at h1
            rw [if_neg hyz, if_neg hzy] at h2
            rw [if_neg (by omega), if_neg (by omega)]
            exact charListLeB_trans xs ys zs h1 h2

theorem charListLeB_total : ∀ (a b : List Char),
    charListLeB a b = true ∨ charListLeB b a = true
  | [], _ => Or.inl rfl
  | _ :: _, [] => Or.inr rfl
  | x :: xs, y :: ys => by
    simp only [charListLeB]
    by_cases hxy : x.toNat < y.toNat
    · left; rw [if_pos hxy]
    · by_cases hyx : y.toNat < x.toNat
      · right; rw [if_pos hyx]
      · rw [if_neg hxy, if_neg hyx, if_neg hyx, if_neg hxy]
        exact charListLeB_total xs ys

theorem strLeB_trans (a b c : String) (h1 : strLeB a b = true) (h2 : strLeB b c = true) :
    strLeB a c = true := charListLeB_trans a.data b.data c.data h1 h2

theorem strLeB_total (a b : String) : strLeB a b = true ∨ strLeB b a = true :=
  charListLeB_total a.data b.data

theorem intLexB_trans {γ : Type} {le2 : γ → γ → Bool}
    (h : ∀ a b c, le2 a b = true → le2 b c = true → le2 a c = true)
    (p q r : Int × γ) (h1 : intLexB le2 p q = true) (h2 : intLexB le2 q r = true) :
    intLexB le2 p r = true := by
  simp only [intLexB, Bool.or_eq_true, Bool.and_eq_true, decide_eq_true_eq] at h1 h2 ⊢
  rcases h1 with h1 | ⟨h1e, h1le⟩ <;> rcases h2 with h2 | ⟨h2e, h2le⟩
  · left; omega
  · left; omega
  · left; omega
  · exact Or.inr ⟨by omega, h p.2 q.2 r.2 h1le h2le⟩

theorem intLexB_total {γ : Type} {le2 : γ → γ → Bool}
    (h : ∀ a b, le2 a b = true ∨ le2 b a = true) (p q : Int × γ) :
    intLexB le2 p q = true ∨ intLexB le2 q p = true := by
  simp only [intLexB, Bool.or_eq_true, Bool.and_eq_true, decide_eq_true_eq]
  rcases Int.lt_trichotomy p.1 q.1 with hlt | heq | hgt
  · exact Or.inl (Or.inl hlt)
  · rcases h p.2 q.2 with h2 | h2
    · exact Or.inl (Or.inr ⟨heq, h2⟩)
    · exact Or.inr (Or.inr ⟨heq.symm, h2⟩)
  · exact Or.inr (Or.inl hgt)

theorem lex1B_trans : ∀ p q r, lex1B p q = true → lex1B q r = true → lex1B p r = true :=
  intLexB_trans strLeB_trans

theorem lex1B_total : ∀ p q, lex1B p q = true ∨ lex1B q p = true :=
  intLexB_total strLeB_total

theorem lex3B_trans : ∀ p q r, lex3B p q = true → lex3B q r = true → lex3B p r = true :=
  intLexB_trans lex1B_trans

theorem lex3B_total : ∀ p q, lex3B p q = true ∨ lex3B q p = true :=
  intLexB_total lex1B_total

theorem lex4B_trans : ∀ p q r, lex4B p q = true → lex4B q r = true → lex4B p r = true :=
  intLexB_trans lex3B_trans

theorem lex4B_total : ∀ p q, lex4B p q = true ∨ lex4B q p = true :=
  intLexB_total lex3B_total

theorem mem_insertLe {α : Type} (le : α → α → Bool) (a x : α) :
    ∀ l, x ∈ insertLe le a l ↔ x = a ∨ x ∈ l
  | [] => by simp [insertLe]
  | b :: l => by
    simp only [insertLe]
    split
    · simp [List.mem_cons]
    · rw [List.mem_cons, mem_insertLe le a x l, List.mem_cons]
      tauto

theorem insertLe_perm {α : Type} (le : α → α → Bool) (a : α) :
    ∀ l, (insertLe le a l).Perm (a :: l)
  | [] => List.Perm.refl _
  | b :: l => by
    simp only [insertLe]
    split
    · exact List.Perm.refl _
    · exact ((insertLe_perm le a l).cons b).trans (List.Perm.swap a b l)

theorem sortLe_perm {α : Type} (le : α → α → Bool) : ∀ l, (sortLe le l).Perm l
  | [] => List.Perm.refl _
  | a :: l => (insertLe_perm le a (sortLe le l)).trans ((sortLe_perm le l).cons a)

theorem mem_sortLe {α : Type} (le : α → α → Bool) (l : List α) (x : α) :
    x ∈ sortLe le l ↔ x ∈ l := (sortLe_perm le l).mem_iff

theorem pairwise_insertLe {α : Type} {le : α → α → Bool}
    (htrans : ∀ a b c, le a b = true → le b c = true → le a c = true)
    (htotal : ∀ a b, le a b = true ∨ le b a = true) (a : α) :
    ∀ l, l.Pairwise (fun x y => le x y = true) →
      (insertLe le a l).Pairwise (fun x y => le x y = true)
  | [], _ => by simp [insertLe]
  | b :: l, h => by
    simp only [insertLe]
    rw [List.pairwise_cons] at h
    split
    next hab =>
      refine List.pairwise_cons.mpr ⟨?_, List.pairwise_cons.mpr ⟨h.1, h.2⟩⟩
      intro x hx
      rcases List.mem_cons.mp hx with rfl | hx
      · exact hab
      · exact htrans a b x hab (h.1 x hx)
    next hab =>
      refine List.pairwise_cons.mpr ⟨?_, pairwise_insertLe htrans htotal a l h.2⟩
      intro x hx
      rcases (mem_insertLe le a x l).mp hx with rfl | hx
      · rcases htotal x b with h1 | h1
        · exact absurd h1 hab
        · exact h1
      · exact h.1 x hx

theorem pairwise_sortLe {α : Type} {le : α → α → Bool}
    (htrans : ∀ a b c, le a b = true → le b c = true → le a c = true)
    (htotal : ∀ a b, le a b = true ∨ le b a = true) :
    ∀ l : List α, (sortLe le l).Pairwise (fun x y => le x y = true)
  | [] => List.Pairwise.nil
  | a :: l => pairwise_insertLe htrans htotal a _ (pairwise_sortLe htrans htotal l)

theorem mem_uniqueAux {α : Type} [DecidableEq α] (x : α) :
    ∀ (seen l : List α), x ∈ uniqueAux seen l ↔ x ∈ l ∧ x ∉ seen
  | seen, [] => by simp [uniqueAux]
  | seen, a :: as => by
    simp only [uniqueAux]
    split
    next ha =>
      rw [mem_uniqueAux x seen as, List.mem_cons]
      constructor
      · rintro ⟨h1, h2⟩; exact ⟨Or.inr h1, h2⟩
      · rintro ⟨h1 | h1, h2⟩
        · exact absurd (h1 ▸ ha) h2
        · exact ⟨h1, h2⟩
    next ha =>
      rw [List.mem_cons, mem_uniqueAux x (a :: seen) as, List.mem_cons]
      by_cases hxa : x = a
      · subst hxa; simp [ha]
      · simp [hxa]

theorem nodup_uniqueAux {α : Type} [DecidableEq α] : ∀ (seen l : List α), (uniqueAux seen l).Nodup
  | _, [] => List.Pairwise.nil
  | seen, a :: as => by
    simp only [uniqueAux]
    split
    next => exact nodup_uniqueAux seen as
    next =>
      rw [List.nodup_cons]
      refine ⟨fun hmem => ?_, nodup_uniqueAux (a :: seen) as⟩
      rw [mem_uniqueAux] at hmem
      exact hmem.2 (List.mem_cons_self a seen)

theorem mem_uniqueFirst {α : Type} [DecidableEq α] (l : List α) (x : α) :
    x ∈ uniqueFirst l ↔ x ∈ l := by
  rw [uniqueFirst, mem_uniqueAux]; simp

theorem nodup_uniqueFirst {α : Type} [DecidableEq α] (l : List α) : (uniqueFirst l).Nodup :=
  nodup_uniqueAux [] l

theorem uniqueAux_eq_self {α : Type} [DecidableEq α] :
    ∀ (seen l : List α), l.Nodup → (∀ x ∈ l, x ∉ seen) → uniqueAux seen l = l
  | _, [], _, _ => rfl
  | seen, a :: as, hnd, hdisj => by
    simp only [uniqueAux]
    rw [if_neg (hdisj a (List.mem_cons_self a as))]
    rw [List.nodup_cons] at hnd
    congr 1
    refine uniqueAux_eq_self (a :: seen) as hnd.2 ?_
    intro x hx hmem
    rcases List.mem_cons.mp hmem with rfl | hmem
    · exact hnd.1 hx
    · exact hdisj x (List.mem_cons_of_mem a hx) hmem

theorem uniqueFirst_eq_self {α : Type} [DecidableEq α] {l : List α} (h : l.Nodup) :
    uniqueFirst l = l :=
  uniqueAux_eq_self [] l h (by simp)

theorem maxEffect_cons (r : Row) (l : List Row) :
    maxEffect (r :: l) = max (effectOrder r.effect) (maxEffect l) := rfl

theorem le_maxEffect : ∀ {l : List Row} {r : Row}, r ∈ l → effectOrder r.effect ≤ maxEffect l := by
  intro l
  induction l with
  | nil => intro r h; simp at h
  | cons a as ih =>
    intro r h
    rcases List.mem_cons.mp h with rfl | h
    · rw [maxEffect_cons]; exact Nat.le_max_left _ _
    · rw [maxEffect_cons]; exact le_trans (ih h) (Nat.le_max_right _ _)

theorem maxEffect_le {l : List Row} {n : Nat} (h : ∀ r ∈ l, effectOrder r.effect ≤ n) :
    maxEffect l ≤ n := by
  induction l with
  | nil => exact Nat.zero_le n
  | cons a as ih =>
    rw [maxEffect_cons]
    exact max_le (h a (List.mem_cons_self a as)) (ih fun r hr => h r (List.mem_cons_of_mem a hr))

theorem exists_maxEffect : ∀ {l : List Row}, l ≠ [] → ∃ r ∈ l, effectOrder r.effect = maxEffect l
  | [], h => absurd rfl h
  | a :: as, _ => by
    by_cases has : as = []
    · subst has
      exact ⟨a, List.mem_cons_self a [], by simp [maxEffect_cons, maxEffect]⟩
    · obtain ⟨r, hr, hre⟩ := exists_maxEffect has
      rw [maxEffect_cons]
      rcases Nat.le_total (maxEffect as) (effectOrder a.effect) with hle | hle
      · exact ⟨a, List.mem_cons_self a as, (Nat.max_eq_left hle).symm⟩
      · exact ⟨r, List.mem_cons_of_mem a hr, by rw [Nat.max_eq_right hle, hre]⟩

theorem find?_attains {l : List Row} {p : Row → Bool} (h : ∃ r ∈ l, p r = true) :
    ∃ r, l.find? p = some r ∧ r ∈ l ∧ p r = true := by
  have hs : (l.find? p).isSome = true := List.find?_isSome.mpr h
  cases hf : l.find? p with
  | none => rw [hf] at hs; simp at hs
  | some r => exact ⟨r, rfl, List.mem_of_find?_eq_some hf, List.find?_some hf⟩

theorem mem_selRows {df : Relation} {sel : List String} {r : Row} :
    r ∈ selRows df sel ↔ r ∈ df ∧ r.character ∈ sel := by
  simp [selRows, List.mem_filter]

theorem mem_giftRows {l : List Row} {g : String} {r : Row} :
    r ∈ giftRows l g ↔ r ∈ l ∧ r.gift = g := by
  simp [giftRows, List.mem_filter]

theorem mem_bestUseRows {l : List Row} {r : Row} :
    r ∈ bestUseRows l ↔ r ∈ l ∧ effectOrder r.effect = giftPeak l r.gift := by
  simp [bestUseRows, List.mem_filter]

theorem pairwise_sortLe_key {α κ : Type} (k : α → κ) (leK : κ → κ → Bool)
    (htrans : ∀ p q r, leK p q = true → leK q r = true → leK p r = true)
    (htotal : ∀ p q, leK p q = true ∨ leK q p = true) (l : List α) :
    (sortLe (fun a b => leK (k a) (k b)) l).Pairwise (fun a b => leK (k a) (k b) = true) :=
  pairwise_sortLe (fun a b c h1 h2 => htrans (k a) (k b) (k c) h1 h2)
    (fun a b => htotal (k a) (k b)) l

theorem mem_yellowRows {df : Relation} {sel : List String} {rar : RarityMap} {r : Row} :
    r ∈ yellowRows df sel rar ↔ r ∈ selRows df sel ∧ rar r.gift = 0 := by
  simp [yellowRows, List.mem_filter]

theorem firstPeakRow_eq_some {l : List Row} {g : String} {r : Row}
    (h : firstPeakRow l g = some r) :
    r ∈ l ∧ r.gift = g ∧ effectOrder r.effect = giftPeak l g := by
  have hmem := List.mem_of_find?_eq_some h
  have hp := List.find?_some h
  rw [mem_giftRows] at hmem
  exact ⟨hmem.1, hmem.2, by simpa using hp⟩

theorem mem_genBestRows {df : Relation} {sel : List String} {rar : RarityMap} {r : Row}
    (h : r ∈ genBestRows df sel rar) :
    r ∈ yellowRows df sel rar ∧
      effectOrder r.effect = giftPeak (yellowRows df sel rar) r.gift := by
  unfold genBestRows at h
  obtain ⟨g, _, hsome⟩ := List.mem_filterMap.mp h
  obtain ⟨h1, h2, h3⟩ := firstPeakRow_eq_some hsome
  exact ⟨h1, by rw [h2]; exact h3⟩

theorem mem_of_genTopRows {df : Relation} {sel : List String} {rar : RarityMap} {r : Row}
    (h : r ∈ genTopRows df sel rar) :
    r ∈ genBestRows df sel rar ∧
      effectOrder r.effect = maxEffect (genBestRows df sel rar) := by
  simpa [genTopRows, List.mem_filter] using h

theorem mem_find_best_gifts {df : Relation} {sel : List String} {r : Row} :
    r ∈ find_best_gifts df sel ↔ r ∈ df ∧ r.character ∈ sel := by
  unfold find_best_gifts
  split
  next h =>
    rcases h with h | h
    · subst h; simp
    · subst h; simp
  next =>
    split
    next h2 =>
      constructor
      · intro hx; simp at hx
      · intro hx
        have hmem : r ∈ selRows df sel := mem_selRows.mpr hx
        rw [h2] at hmem
        simp at hmem
    next => rw [mem_sortLe, mem_selRows]

/-- C10: find_best_gifts returns exactly the valid-effect rows whose character
is selected, with no peak-tier filtering, sorted by (row count of the gift
among the selection descending, effect descending, gift name ascending); in
particular a selected character's sub-peak row still contributes its gift. -/
theorem C10_find_best_gifts_rows_and_order (df : Relation) (sel : List String) :
    (∀ r : Row, r ∈ find_best_gifts df sel ↔ r ∈ df ∧ r.character ∈ sel) ∧
      (find_best_gifts df sel).Pairwise
        (fun a b => lex3B (fbKey (selRows df sel) a) (fbKey (selRows df sel) b) = true) := by
  refine ⟨fun r => mem_find_best_gifts, ?_⟩
  unfold find_best_gifts
  split
  · exact List.Pairwise.nil
  · split
    · exact List.Pairwise.nil
    · exact pairwise_sortLe_key (fbKey (selRows df sel)) lex3B lex3B_trans lex3B_total _

/-- C8: every query is a pure function of the engine state: running any of the
four queries leaves the state (relation and rarity lookup) unchanged, each
result is recomputed from the inputs alone, and running queries in sequence
carries no state between the calls. -/
theorem C8_queries_pure (s : EngineState) (sel sel2 : List String) :
    (runFindBest s sel).2 = s ∧ (runOptimal s sel).2 = s ∧ (runReverse s sel).2 = s ∧
      (runGeneration s sel).2 = s ∧
      (runFindBest s sel).1 = find_best_gifts s.df sel ∧
      (runOptimal s sel).1 = get_optimal_gifts_per_character s.df sel s.rarity ∧
      (runReverse s sel).1 = get_shared_gifts_reverse_lookup s.df sel s.rarity ∧
      (runGeneration s sel).1 = get_generation_candidates s.df sel s.rarity ∧
      (runOptimal ((runFindBest s sel).2) sel2).1 =
        get_optimal_gifts_per_character s.df sel2 s.rarity ∧
      (runGeneration ((runReverse ((runOptimal ((runFindBest s sel).2) sel).2) sel).2) sel2).1 =
        get_generation_candidates s.df sel2 s.rarity :=
  ⟨rfl, rfl, rfl, rfl, rfl, rfl, rfl, rfl, rfl, rfl⟩

/-- C7: the concrete scenario (A, X, large), (B, X, huge), (A, Y, medium) with
empty rarity and selection [A, B]: B's unique list is [X], A's unique list is
[Y], both shared lists are empty, and the reverse lookup is empty. -/
theorem C7_concrete_scenario :
    lookupBuckets (get_optimal_gifts_per_character
        [⟨"A", "X", .large⟩, ⟨"B", "X", .huge⟩, ⟨"A", "Y", .medium⟩]
        ["A", "B"] (fun _ => 0)) "B" = ⟨["X"], []⟩ ∧
      lookupBuckets (get_optimal_gifts_per_character
        [⟨"A", "X", .large⟩, ⟨"B", "X", .huge⟩, ⟨"A", "Y", .medium⟩]
        ["A", "B"] (fun _ => 0)) "A" = ⟨["Y"], []⟩ ∧
      get_shared_gifts_reverse_lookup
        [⟨"A", "X", .large⟩, ⟨"B", "X", .huge⟩, ⟨"A", "Y", .medium⟩]
        ["A", "B"] (fun _ => 0) = [] := by
  decide

/-- C1 (amended): the generation-candidate shortlist considers exactly the
gifts of rarity value 0: the candidate pool keeps a selected row precisely
when its gift's rarity value is 0, and every returned gift has rarity value 0
(absent gifts default to 0; any nonzero tier, including 1, 2, 3 and negative
values, is excluded). -/
theorem C1_generation_tier_zero_filter (df : Relation) (sel : List String) (rar : RarityMap) :
    (∀ r : Row, r ∈ yellowRows df sel rar ↔ r ∈ selRows df sel ∧ rar r.gift = 0) ∧
      ∀ g ∈ get_generation_candidates df sel rar, rar g = 0 := by
  refine ⟨fun r => mem_yellowRows, ?_⟩
  intro g hg
  unfold get_generation_candidates at hg
  split at hg
  · simp at hg
  · split at hg
    · simp at hg
    · split at hg
      · simp at hg
      · rw [mem_uniqueFirst] at hg
        obtain ⟨r, hr, rfl⟩ := List.mem_map.mp hg
        rw [mem_sortLe] at hr
        have h1 := (mem_of_genTopRows hr).1
        have h2 := (mem_genBestRows h1).1
        exact (mem_yellowRows.mp h2).2

/-- C1 witness: on the single tier-0 row (A, X, huge) the shortlist contains X
and its rarity value is 0. -/
theorem C1_generation_tier_zero_filter_witness :
    "X" ∈ get_generation_candidates [⟨"A", "X", .huge⟩] ["A"] (fun _ => 0) ∧
      (fun _ => (0 : Int)) "X" = 0 :=
  ⟨by decide,
   (C1_generation_tier_zero_filter [⟨"A", "X", .huge⟩] ["A"] (fun _ => 0)).2 "X" (by decide)⟩

/-- C1 counterexample: with the single selected row (A, X, huge) and X of
rarity tier 2, the claimed rule (any tier other than 1 is eligible) yields
[X], while the code yields the empty list: a tier-2 gift is not considered. -/
theorem C1_counterexample_tier_two_excluded :
    claimedGenerationCandidates [⟨"A", "X", .huge⟩] ["A"] (fun _ => 2) = ["X"] ∧
      get_generation_candidates [⟨"A", "X", .huge⟩] ["A"] (fun _ => 2) = [] := by
  decide

/-- C3 (amended): get_optimal_gifts_per_character returns the empty mapping
when the relation or the selection is empty, and whenever the relation is
non-empty it returns an entry for every character of the selection; it never
fails on any input. -/
theorem C3_optimal_entry_per_character (df : Relation) (sel : List String) (rar : RarityMap) :
    (df = [] ∨ sel = [] → get_optimal_gifts_per_character df sel rar = []) ∧
      (df ≠ [] → ∀ c ∈ sel, ∃ B : Buckets,
        (c, B) ∈ get_optimal_gifts_per_character df sel rar) := by
  constructor
  · intro h
    unfold get_optimal_gifts_per_character
    rw [if_pos h]
  · intro hdf c hc
    have hsel : sel ≠ [] := by
      intro h
      subst h
      simp at hc
    unfold get_optimal_gifts_per_character
    rw [if_neg (not_or.mpr ⟨hdf, hsel⟩)]
    split
    · exact ⟨⟨[], []⟩, List.mem_map.mpr ⟨c, hc, rfl⟩⟩
    · exact ⟨bucketsFor (bestUseRows (selRows df sel)) rar c, List.mem_map.mpr ⟨c, hc, rfl⟩⟩

/-- C3 witness: the empty relation gives the empty mapping, and on a one-row
relation the selected character A has an entry. -/
theorem C3_optimal_entry_per_character_witness :
    get_optimal_gifts_per_character [] ["A"] (fun _ => 0) = [] ∧
      ∃ B : Buckets, ("A", B) ∈
        get_optimal_gifts_per_character [⟨"A", "X", .huge⟩] ["A"] (fun _ => 0) :=
  ⟨(C3_optimal_entry_per_character [] ["A"] (fun _ => 0)).1 (Or.inl rfl),
   (C3_optimal_entry_per_character [⟨"A", "X", .huge⟩] ["A"] (fun _ => 0)).2
     (by decide) "A" (by decide)⟩

/-- C3 counterexample: on the empty relation with the non-empty selection [A]
the code returns the empty mapping, omitting the selected character A, against
the claim that every selected character receives an entry. -/
theorem C3_counterexample_empty_relation :
    get_optimal_gifts_per_character [] ["A"] (fun _ => 0) = [] ∧ "A" ∈ ["A"] := by
  decide

theorem find?_map_pair {β : Type} (f : String → β) (sel : List String) (c : String) :
    (sel.map (fun x => (x, f x))).find? (fun p => decide (p.1 = c)) =
      if c ∈ sel then some (c, f c) else none := by
  induction sel with
  | nil => rfl
  | cons a as ih =>
    simp only [List.map_cons]
    by_cases h : a = c
    · subst h
      rw [List.find?_cons_of_pos _ (by simp), if_pos (List.mem_cons_self a as)]
    · rw [List.find?_cons_of_neg _ (by simp [h]), ih]
      by_cases hc : c ∈ as
      · rw [if_pos hc, if_pos (List.mem_cons_of_mem a hc)]
      · rw [if_neg hc, if_neg ?_]
        intro hmem
        rcases List.mem_cons.mp hmem with rfl | hmem
        · exact h rfl
        · exact hc hmem

theorem lookupBuckets_optimal (df : Relation) (sel : List String) (rar : RarityMap)
    (c : String) :
    lookupBuckets (get_optimal_gifts_per_character df sel rar) c =
      if df = [] ∨ sel = [] then ⟨[], []⟩
      else if selRows df sel = [] then ⟨[], []⟩
      else if c ∈ sel then bucketsFor (bestUseRows (selRows df sel)) rar c
      else ⟨[], []⟩ := by
  by_cases h1 : df = [] ∨ sel = []
  · rw [if_pos h1]
    unfold get_optimal_gifts_per_character
    rw [if_pos h1]
    rfl
  · rw [if_neg h1]
    unfold get_optimal_gifts_per_character
    rw [if_neg h1]
    by_cases h2 : selRows df sel = []
    · rw [if_pos h2, if_pos h2]
      unfold lookupBuckets
      rw [find?_map_pair]
      by_cases h3 : c ∈ sel
      · rw [if_pos h3]
      · rw [if_neg h3]
    · rw [if_neg h2, if_neg h2]
      unfold lookupBuckets
      rw [find?_map_pair]
      by_cases h3 : c ∈ sel
      · rw [if_pos h3, if_pos h3]
      · rw [if_neg h3, if_neg h3]

theorem not_mem_bestUse_of_degenerate {df : Relation} {sel : List String} {r : Row}
    (h1 : df = [] ∨ sel = []) (hr : r ∈ bestUseRows (selRows df sel)) : False := by
  have hr2 := mem_selRows.mp (mem_bestUseRows.mp hr).1
  rcases h1 with h | h
  · subst h; simp at hr2
  · subst h; simp at hr2

theorem mem_unique_bucket {df : Relation} {sel : List String} {rar : RarityMap}
    {c g : String} :
    g ∈ (lookupBuckets (get_optimal_gifts_per_character df sel rar) c).unique ↔
      ∃ r ∈ bestUseRows (selRows df sel), r.character = c ∧ r.gift = g ∧
        competition (bestUseRows (selRows df sel)) r.gift = 1 := by
  rw [lookupBuckets_optimal]
  by_cases h1 : df = [] ∨ sel = []
  · rw [if_pos h1]
    constructor
    · intro h; simp at h
    · rintro ⟨r, hr, -⟩
      exact absurd (not_mem_bestUse_of_degenerate h1 hr) (by simp)
  · rw [if_neg h1]
    by_cases h2 : selRows df sel = []
    · rw [if_pos h2]
      constructor
      · intro h; simp at h
      · rintro ⟨r, hr, -⟩
        have := (mem_bestUseRows.mp hr).1
        rw [h2] at this
        simp at this
    · rw [if_neg h2]
      by_cases h3 : c ∈ sel
      · rw [if_pos h3]
        simp only [bucketsFor, List.mem_map, mem_sortLe, List.mem_filter,
          decide_eq_true_eq]
        constructor
        · rintro ⟨r, ⟨⟨hr, hc⟩, hcomp⟩, rfl⟩
          exact ⟨r, hr, hc, rfl, hcomp⟩
        · rintro ⟨r, hr, hc, rfl, hcomp⟩
          exact ⟨r, ⟨⟨hr, hc⟩, hcomp⟩, rfl⟩
      · rw [if_neg h3]
        constructor
        · intro h; simp at h
        · rintro ⟨r, hr, hc, -⟩
          have := (mem_selRows.mp (mem_bestUseRows.mp hr).1).2
          rw [hc] at this
          exact absurd this h3

theorem mem_shared_bucket {df : Relation} {sel : List String} {rar : RarityMap}
    {c g : String} :
    g ∈ (lookupBuckets (get_optimal_gifts_per_character df sel rar) c).shared ↔
      ∃ r ∈ bestUseRows (selRows df sel), r.character = c ∧ r.gift = g ∧
        1 < competition (bestUseRows (selRows df sel)) r.gift := by
  rw [lookupBuckets_optimal]
  by_cases h1 : df = [] ∨ sel = []
  · rw [if_pos h1]
    constructor
    · intro h; simp at h
    · rintro ⟨r, hr, -⟩
      exact absurd (not_mem_bestUse_of_degenerate h1 hr) (by simp)
  · rw [if_neg h1]
    by_cases h2 : selRows df sel = []
    · rw [if_pos h2]
      constructor
      · intro h; simp at h
      · rintro ⟨r, hr, -⟩
        have := (mem_bestUseRows.mp hr).1
        rw [h2] at this
        simp at this
    · rw [if_neg h2]
      by_cases h3 : c ∈ sel
      · rw [if_pos h3]
        simp only [bucketsFor, List.mem_map, mem_sortLe, List.mem_filter,
          decide_eq_true_eq]
        constructor
        · rintro ⟨r, ⟨⟨hr, hc⟩, hcomp⟩, rfl⟩
          exact ⟨r, hr, hc, rfl, hcomp⟩
        · rintro ⟨r, hr, hc, rfl, hcomp⟩
          exact ⟨r, ⟨⟨hr, hc⟩, hcomp⟩, rfl⟩
      · rw [if_neg h3]
        constructor
        · intro h; simp at h
        · rintro ⟨r, hr, hc, -⟩
          have := (mem_selRows.mp (mem_bestUseRows.mp hr).1).2
          rw [hc] at this
          exact absurd this h3

theorem uniqueKey_eq_nameKey {l : List Row} {rar : RarityMap} {r : Row}
    (h : effectOrder r.effect = giftPeak l r.gift) :
    uniqueKey rar r = uniqueNameKey l rar r.gift := by
  unfold uniqueKey uniqueNameKey
  rw [h]

theorem sharedKey_eq_nameKey {l : List Row} {rar : RarityMap} {r : Row}
    (h : effectOrder r.effect = giftPeak l r.gift) :
    sharedKey (bestUseRows l) rar r = sharedNameKey l rar r.gift := by
  unfold sharedKey sharedNameKey
  rw [h]

theorem unique_bucket_pairwise (df : Relation) (sel : List String) (rar : RarityMap)
    (c : String) :
    (lookupBuckets (get_optimal_gifts_per_character df sel rar) c).unique.Pairwise
      (fun g1 g2 => lex3B (uniqueNameKey (selRows df sel) rar g1)
        (uniqueNameKey (selRows df sel) rar g2) = true) := by
  rw [lookupBuckets_optimal]
  by_cases h1 : df = [] ∨ sel = []
  · rw [if_pos h1]; exact List.Pairwise.nil
  · rw [if_neg h1]
    by_cases h2 : selRows df sel = []
    · rw [if_pos h2]; exact List.Pairwise.nil
    · rw [if_neg h2]
      by_cases h3 : c ∈ sel
      · rw [if_pos h3]
        simp only [bucketsFor]
        rw [List.pairwise_map]
        have hpw := pairwise_sortLe_key (uniqueKey rar) lex3B lex3B_trans lex3B_total
          (((bestUseRows (selRows df sel)).filter
              (fun r => decide (r.character = c))).filter
            (fun r => decide (competition (bestUseRows (selRows df sel)) r.gift = 1)))
        refine hpw.imp_of_mem ?_
        intro a b ha hb hab
        rw [mem_sortLe, List.mem_filter, List.mem_filter] at ha hb
        have ha2 := (mem_bestUseRows.mp ha.1.1).2
        have hb2 := (mem_bestUseRows.mp hb.1.1).2
        rw [uniqueKey_eq_nameKey ha2, uniqueKey_eq_nameKey hb2] at hab
        exact hab
      · rw [if_neg h3]; exact List.Pairwise.nil

theorem shared_bucket_pairwise (df : Relation) (sel : List String) (rar : RarityMap)
    (c : String) :
    (lookupBuckets (get_optimal_gifts_per_character df sel rar) c).shared.Pairwise
      (fun g1 g2 => lex4B (sharedNameKey (selRows df sel) rar g1)
        (sharedNameKey (selRows df sel) rar g2) = true) := by
  rw [lookupBuckets_optimal]
  by_cases h1 : df = [] ∨ sel = []
  · rw [if_pos h1]; exact List.Pairwise.nil
  · rw [if_neg h1]
    by_cases h2 : selRows df sel = []
    · rw [if_pos h2]; exact List.Pairwise.nil
    · rw [if_neg h2]
      by_cases h3 : c ∈ sel
      · rw [if_pos h3]
        simp only [bucketsFor]
        rw [List.pairwise_map]
        have hpw := pairwise_sortLe_key (sharedKey (bestUseRows (selRows df sel)) rar)
          lex4B lex4B_trans lex4B_total
          (((bestUseRows (selRows df sel)).filter
              (fun r => decide (r.character = c))).filter
            (fun r => decide (1 < competition (bestUseRows (selRows df sel)) r.gift)))
        refine hpw.imp_of_mem ?_
        intro a b ha hb hab
        rw [mem_sortLe, List.mem_filter, List.mem_filter] at ha hb
        have ha2 := (mem_bestUseRows.mp ha.1.1).2
        have hb2 := (mem_bestUseRows.mp hb.1.1).2
        rw [sharedKey_eq_nameKey ha2, sharedKey_eq_nameKey hb2] at hab
        exact hab
      · rw [if_neg h3]; exact List.Pairwise.nil

/-- C4: each surviving (character, gift) pair of the peak-tier subset lands in
exactly one bucket — unique precisely when the gift's competition is 1, shared
precisely when it exceeds 1 — and the unique list is sorted by (rarity
descending, effect descending, gift ascending) while the shared list is sorted
by (rarity descending, competition ascending, effect descending, gift
ascending). -/
theorem C4_bucket_assignment_and_order (df : Relation) (sel : List String)
    (rar : RarityMap) (c g : String) :
    (g ∈ (lookupBuckets (get_optimal_gifts_per_character df sel rar) c).unique ↔
      ∃ r ∈ bestUseRows (selRows df sel), r.character = c ∧ r.gift = g ∧
        competition (bestUseRows (selRows df sel)) r.gift = 1) ∧
    (g ∈ (lookupBuckets (get_optimal_gifts_per_character df sel rar) c).shared ↔
      ∃ r ∈ bestUseRows (selRows df sel), r.character = c ∧ r.gift = g ∧
        1 < competition (bestUseRows (selRows df sel)) r.gift) ∧
    ¬ (g ∈ (lookupBuckets (get_optimal_gifts_per_character df sel rar) c).unique ∧
        g ∈ (lookupBuckets (get_optimal_gifts_per_character df sel rar) c).shared) ∧
    (lookupBuckets (get_optimal_gifts_per_character df sel rar) c).unique.Pairwise
      (fun g1 g2 => lex3B (uniqueNameKey (selRows df sel) rar g1)
        (uniqueNameKey (selRows df sel) rar g2) = true) ∧
    (lookupBuckets (get_optimal_gifts_per_character df sel rar) c).shared.Pairwise
      (fun g1 g2 => lex4B (sharedNameKey (selRows df sel) rar g1)
        (sharedNameKey (selRows df sel) rar g2) = true) := by
  refine ⟨mem_unique_bucket, mem_shared_bucket, ?_, unique_bucket_pairwise df sel rar c,
    shared_bucket_pairwise df sel rar c⟩
  rintro ⟨hu, hs⟩
  obtain ⟨r1, -, -, hg1, hc1⟩ := mem_unique_bucket.mp hu
  obtain ⟨r2, -, -, hg2, hc2⟩ := mem_shared_bucket.mp hs
  rw [hg1] at hc1
  rw [hg2] at hc2
  omega

theorem mem_sharedRowsOf {best : List Row} {r : Row} :
    r ∈ sharedRowsOf best ↔ r ∈ best ∧ 1 < competition best r.gift := by
  simp [sharedRowsOf, List.mem_filter]

theorem mem_reverse_lookup_iff (df : Relation) (sel : List String) (rar : RarityMap)
    (g : String) (e : SharedEntry) :
    (g, e) ∈ get_shared_gifts_reverse_lookup df sel rar ↔
      (∃ r ∈ sharedRowsOf (bestUseRows (selRows df sel)), r.gift = g) ∧
        e = sharedEntryFor (bestUseRows (selRows df sel)) rar g := by
  unfold get_shared_gifts_reverse_lookup
  split
  next h1 =>
    constructor
    · intro h; simp at h
    · rintro ⟨⟨r, hr, -⟩, -⟩
      exact absurd (not_mem_bestUse_of_degenerate h1 (mem_sharedRowsOf.mp hr).1) (by simp)
  next =>
    split
    next h2 =>
      constructor
      · intro h; simp at h
      · rintro ⟨⟨r, hr, -⟩, -⟩
        have := (mem_bestUseRows.mp (mem_sharedRowsOf.mp hr).1).1
        rw [h2] at this
        simp at this
    next =>
      split
      next h3 =>
        constructor
        · intro h; simp at h
        · rintro ⟨⟨r, hr, -⟩, -⟩
          rw [h3] at hr
          simp at hr
      next =>
        rw [mem_sortLe, List.mem_map]
        constructor
        · rintro ⟨g2, hg2, heq⟩
          rw [mem_uniqueFirst] at hg2
          obtain ⟨r, hr, hrg⟩ := List.mem_map.mp hg2
          obtain ⟨rfl, rfl⟩ := Prod.mk.injEq _ _ _ _ ▸ heq
          exact ⟨⟨r, hr, hrg⟩, rfl⟩
        · rintro ⟨⟨r, hr, hrg⟩, rfl⟩
          refine ⟨g, ?_, rfl⟩
          rw [mem_uniqueFirst]
          exact List.mem_map.mpr ⟨r, hr, hrg⟩

theorem mem_sharedEntry_characters {best : List Row} {rar : RarityMap} {g c : String} :
    c ∈ (sharedEntryFor best rar g).characters ↔
      ∃ r ∈ sharedRowsOf best, r.gift = g ∧ r.character = c := by
  show c ∈ sortLe strLeB (distinctCharacters (sharedRowsOf best) g) ↔ _
  rw [mem_sortLe, distinctCharacters, mem_uniqueFirst]
  constructor
  · intro h
    obtain ⟨r, hr, rfl⟩ := List.mem_map.mp h
    rw [mem_giftRows] at hr
    exact ⟨r, hr.1, hr.2, rfl⟩
  · rintro ⟨r, hr, hg, hc⟩
    exact List.mem_map.mpr ⟨r, mem_giftRows.mpr ⟨hr, hg⟩, hc⟩

/-- C6: the per-character shared buckets and the shared-gift reverse lookup
agree: a gift g appears in character c's shared list exactly when c appears in
the characters list of g's entry in the reverse lookup. -/
theorem C6_shared_bucket_reverse_lookup_agree (df : Relation) (sel : List String)
    (rar : RarityMap) (c g : String) :
    g ∈ (lookupBuckets (get_optimal_gifts_per_character df sel rar) c).shared ↔
      ∃ e : SharedEntry, (g, e) ∈ get_shared_gifts_reverse_lookup df sel rar ∧
        c ∈ e.characters := by
  rw [mem_shared_bucket]
  constructor
  · rintro ⟨r, hr, hc, hg, hcomp⟩
    refine ⟨sharedEntryFor (bestUseRows (selRows df sel)) rar g, ?_, ?_⟩
    · rw [mem_reverse_lookup_iff]
      exact ⟨⟨r, mem_sharedRowsOf.mpr ⟨hr, hcomp⟩, hg⟩, rfl⟩
    · rw [mem_sharedEntry_characters]
      exact ⟨r, mem_sharedRowsOf.mpr ⟨hr, hcomp⟩, hg, hc⟩
  · rintro ⟨e, he, hc⟩
    rw [mem_reverse_lookup_iff] at he
    obtain ⟨-, rfl⟩ := he
    rw [mem_sharedEntry_characters] at hc
    obtain ⟨r, hr, hg, hcc⟩ := hc
    have hmem := mem_sharedRowsOf.mp hr
    exact ⟨r, hmem.1, hcc, hg, hmem.2⟩

/-- C9: every reverse-lookup entry's competition equals the length of its
characters list, that length is at least 2, and the characters list is sorted
ascending without duplicates. -/
theorem C9_reverse_entry_invariants (df : Relation) (sel : List String) (rar : RarityMap)
    (g : String) (e : SharedEntry)
    (h : (g, e) ∈ get_shared_gifts_reverse_lookup df sel rar) :
    e.competition = e.characters.length ∧ 2 ≤ e.characters.length ∧
      e.characters.Pairwise (fun a b => strLeB a b = true) ∧ e.characters.Nodup := by
  rw [mem_reverse_lookup_iff] at h
  obtain ⟨⟨r, hr, hrg⟩, rfl⟩ := h
  have hcomp : 1 < competition (bestUseRows (selRows df sel)) g := by
    have := (mem_sharedRowsOf.mp hr).2
    rwa [hrg] at this
  have hfilter : giftRows (sharedRowsOf (bestUseRows (selRows df sel))) g =
      giftRows (bestUseRows (selRows df sel)) g := by
    unfold giftRows sharedRowsOf
    rw [List.filter_filter]
    refine List.filter_congr ?_
    intro x _
    by_cases hx : x.gift = g
    · rw [hx]
      simp [hcomp]
    · simp [hx]
  have hchars : (sharedEntryFor (bestUseRows (selRows df sel)) rar g).characters =
      sortLe strLeB (distinctCharacters (bestUseRows (selRows df sel)) g) := by
    show sortLe strLeB (distinctCharacters (sharedRowsOf (bestUseRows (selRows df sel))) g) = _
    unfold distinctCharacters
    rw [hfilter]
  refine ⟨?_, ?_, ?_, ?_⟩
  · show competition (bestUseRows (selRows df sel)) g = _
    rw [hchars, (sortLe_perm _ _).length_eq]
    rfl
  · rw [hchars, (sortLe_perm _ _).length_eq]
    have : (distinctCharacters (bestUseRows (selRows df sel)) g).length =
        competition (bestUseRows (selRows df sel)) g := rfl
    omega
  · rw [hchars]
    exact pairwise_sortLe strLeB_trans strLeB_total _
  · rw [hchars]
    exact ((sortLe_perm _ _).nodup_iff).mpr (nodup_uniqueFirst _)

/-- C9 witness: the shared scenario (A, X, large), (B, X, large) with empty
rarity and selection [A, B] yields the entry X ↦ characters [A, B],
competition 2, and the invariants hold there. -/
theorem C9_reverse_entry_invariants_witness :
    (⟨["A", "B"], 0, 2, 1⟩ : SharedEntry).competition =
        (⟨["A", "B"], 0, 2, 1⟩ : SharedEntry).characters.length ∧
      2 ≤ (⟨["A", "B"], 0, 2, 1⟩ : SharedEntry).characters.length ∧
      (⟨["A", "B"], 0, 2, 1⟩ : SharedEntry).characters.Pairwise
        (fun a b => strLeB a b = true) ∧
      (⟨["A", "B"], 0, 2, 1⟩ : SharedEntry).characters.Nodup :=
  C9_reverse_entry_invariants [⟨"A", "X", .large⟩, ⟨"B", "X", .large⟩] ["A", "B"]
    (fun _ => 0) "X" ⟨["A", "B"], 0, 2, 1⟩ (by decide)

theorem mem_favorites {df : Relation} {sel : List String} {g : String} :
    g ∈ (find_best_gifts df sel).map (fun r => r.gift) ↔
      ∃ r ∈ df, r.character ∈ sel ∧ r.gift = g := by
  rw [List.mem_map]
  constructor
  · rintro ⟨r, hr, rfl⟩
    have h := mem_find_best_gifts.mp hr
    exact ⟨r, h.1, h.2, rfl⟩
  · rintro ⟨r, hr, hc, hg⟩
    exact ⟨r, mem_find_best_gifts.mpr ⟨hr, hc⟩, hg⟩

/-- C5 (amended): on a non-empty relation and non-empty selection the
useless-gift computation partitions universe minus favorites exactly: rare
holds precisely its tier-1 members, sorted ascending, common holds precisely
the rest, sorted by (rarity descending, name ascending), the two lists are
disjoint and duplicate-free, and a tier-1 gift never appears in common; on an
empty relation or empty selection the column access on the columnless
favorites frame fails and no partition is produced. -/
theorem C5_useless_gifts_partition (univ : List String) (df : Relation)
    (sel : List String) (rar : RarityMap) :
    (df = [] ∨ sel = [] → useless_gifts univ df sel rar = none) ∧
    (df ≠ [] → sel ≠ [] → ∃ U : UselessGifts, useless_gifts univ df sel rar = some U ∧
      (∀ g : String, g ∈ U.rare ↔
        (g ∈ univ ∧ ¬ ∃ r ∈ df, r.character ∈ sel ∧ r.gift = g) ∧ rar g = 1) ∧
      (∀ g : String, g ∈ U.common ↔
        (g ∈ univ ∧ ¬ ∃ r ∈ df, r.character ∈ sel ∧ r.gift = g) ∧ rar g ≠ 1) ∧
      (∀ g : String, ¬ (g ∈ U.common ∧ g ∈ U.rare)) ∧
      U.rare.Pairwise (fun a b => strLeB a b = true) ∧
      U.rare.Nodup ∧
      U.common.Pairwise (fun a b => lex1B (commonKey rar a) (commonKey rar b) = true) ∧
      U.common.Nodup) := by
  constructor
  · intro h
    unfold useless_gifts
    rw [if_pos h]
  · intro hdf hsel
    have hu : ∀ x : String, x ∈ (uniqueFirst univ).filter
        (fun y => decide (y ∉ (find_best_gifts df sel).map (fun r => r.gift))) ↔
        x ∈ univ ∧ ¬ ∃ r ∈ df, r.character ∈ sel ∧ r.gift = x := by
      intro x
      rw [List.mem_filter, mem_uniqueFirst]
      simp only [decide_eq_true_eq]
      rw [mem_favorites]
    have hnd : ((uniqueFirst univ).filter
        (fun y => decide (y ∉ (find_best_gifts df sel).map (fun r => r.gift)))).Nodup :=
      List.Nodup.filter _ (nodup_uniqueFirst univ)
    refine ⟨⟨sortLe (fun a b => lex1B (commonKey rar a) (commonKey rar b))
        (((uniqueFirst univ).filter
            (fun y => decide (y ∉ (find_best_gifts df sel).map (fun r => r.gift)))).filter
          (fun y => decide (rar y ≠ 1))),
      sortLe strLeB
        (((uniqueFirst univ).filter
            (fun y => decide (y ∉ (find_best_gifts df sel).map (fun r => r.gift)))).filter
          (fun y => decide (rar y = 1)))⟩, ?_, ?_, ?_, ?_, ?_, ?_, ?_, ?_⟩
    · unfold useless_gifts
      rw [if_neg (not_or.mpr ⟨hdf, hsel⟩)]
    · intro g
      rw [mem_sortLe, List.mem_filter]
      simp only [decide_eq_true_eq]
      rw [hu]
    · intro g
      rw [mem_sortLe, List.mem_filter]
      simp only [decide_eq_true_eq]
      rw [hu]
    · intro g
      rintro ⟨hc, hr⟩
      rw [mem_sortLe, List.mem_filter] at hc hr
      simp only [decide_eq_true_eq] at hc hr
      exact hc.2 hr.2
    · exact pairwise_sortLe strLeB_trans strLeB_total _
    · exact ((sortLe_perm _ _).nodup_iff).mpr (List.Nodup.filter _ hnd)
    · exact pairwise_sortLe_key (commonKey rar) lex1B lex1B_trans lex1B_total _
    · exact ((sortLe_perm _ _).nodup_iff).mpr (List.Nodup.filter _ hnd)

/-- C5 witness: the scenario universe [X, Y, Z] with the single row (A, X,
large), selection [A] and Y of tier 1 produces a partition, while the empty
relation produces none. -/
theorem C5_useless_gifts_partition_witness :
    (∃ U : UselessGifts, useless_gifts ["X", "Y", "Z"] [⟨"A", "X", .large⟩] ["A"]
        (fun g => if g = "Y" then 1 else 0) = some U) ∧
      useless_gifts ["X", "Y", "Z"] ([] : Relation) ["A"]
        (fun g => if g = "Y" then 1 else 0) = none := by
  constructor
  · obtain ⟨U, hU, -⟩ := (C5_useless_gifts_partition ["X", "Y", "Z"]
      [⟨"A", "X", .large⟩] ["A"] (fun g => if g = "Y" then 1 else 0)).2
      (by decide) (by decide)
    exact ⟨U, hU⟩
  · exact (C5_useless_gifts_partition ["X", "Y", "Z"] ([] : Relation) ["A"]
      (fun g => if g = "Y" then 1 else 0)).1 (Or.inl rfl)

/-- C5 counterexample: on the empty relation with selection [A], the universe
gift X is not anyone's favorite, so the claimed partition would have to place
it in rare or common; but find_best_gifts returns a columnless frame there,
the gift-column access fails, and the computation yields no partition at
all. -/
theorem C5_counterexample_empty_relation_failure :
    useless_gifts ["X"] ([] : Relation) ["A"] (fun _ => 0) = none ∧
      "X" ∈ ["X"] ∧ ¬ ∃ r ∈ ([] : Relation), r.character ∈ ["A"] ∧ r.gift = "X" := by
  refine ⟨rfl, by decide, ?_⟩
  simp

theorem le_giftPeak {l : List Row} {r : Row} (h : r ∈ l) :
    effectOrder r.effect ≤ giftPeak l r.gift :=
  le_maxEffect (mem_giftRows.mpr ⟨h, rfl⟩)

theorem genBest_has_representative {df : Relation} {sel : List String} {rar : RarityMap}
    {r : Row} (h : r ∈ yellowRows df sel rar) :
    ∃ r2 ∈ genBestRows df sel rar, r2.gift = r.gift ∧
      effectOrder r2.effect = giftPeak (yellowRows df sel rar) r.gift := by
  have hg : r.gift ∈ sortLe strLeB
      (uniqueFirst ((yellowRows df sel rar).map (fun x => x.gift))) := by
    rw [mem_sortLe, mem_uniqueFirst]
    exact List.mem_map.mpr ⟨r, h, rfl⟩
  have hex : ∃ x ∈ giftRows (yellowRows df sel rar) r.gift,
      (decide (effectOrder x.effect = giftPeak (yellowRows df sel rar) r.gift)) = true := by
    have hne : giftRows (yellowRows df sel rar) r.gift ≠ [] := by
      intro hnil
      have hm : r ∈ giftRows (yellowRows df sel rar) r.gift := mem_giftRows.mpr ⟨h, rfl⟩
      rw [hnil] at hm
      simp at hm
    obtain ⟨x, hx, hxe⟩ := exists_maxEffect hne
    exact ⟨x, hx, by simp [giftPeak, hxe]⟩
  obtain ⟨r2, hfind, -, -⟩ := find?_attains hex
  obtain ⟨-, h2, h3⟩ := firstPeakRow_eq_some hfind
  refine ⟨r2, ?_, h2, h3⟩
  unfold genBestRows
  exact List.mem_filterMap.mpr ⟨r.gift, hg, hfind⟩

theorem maxEffect_genBestRows (df : Relation) (sel : List String) (rar : RarityMap) :
    maxEffect (genBestRows df sel rar) = maxEffect (yellowRows df sel rar) := by
  apply Nat.le_antisymm
  · apply maxEffect_le
    intro r hr
    exact le_maxEffect (mem_genBestRows hr).1
  · apply maxEffect_le
    intro r hr
    obtain ⟨r2, hr2, hr2g, hr2e⟩ := genBest_has_representative hr
    calc effectOrder r.effect ≤ giftPeak (yellowRows df sel rar) r.gift := le_giftPeak hr
      _ = effectOrder r2.effect := hr2e.symm
      _ ≤ maxEffect (genBestRows df sel rar) := le_maxEffect hr2

theorem mem_generation_candidates_iff (df : Relation) (sel : List String)
    (rar : RarityMap) (g : String) :
    g ∈ get_generation_candidates df sel rar ↔
      (∃ r ∈ yellowRows df sel rar, r.gift = g) ∧
        giftPeak (yellowRows df sel rar) g = maxEffect (yellowRows df sel rar) := by
  unfold get_generation_candidates
  split
  next h1 =>
    constructor
    · intro h; simp at h
    · rintro ⟨⟨r, hr, -⟩, -⟩
      have hm := mem_selRows.mp (mem_yellowRows.mp hr).1
      rcases h1 with h | h
      · subst h; simp at hm
      · subst h; simp at hm
  next =>
    split
    next h2 =>
      constructor
      · intro h; simp at h
      · rintro ⟨⟨r, hr, -⟩, -⟩
        have hm := (mem_yellowRows.mp hr).1
        rw [h2] at hm
        simp at hm
    next =>
      split
      next h3 =>
        constructor
        · intro h; simp at h
        · rintro ⟨⟨r, hr, -⟩, -⟩
          rw [h3] at hr
          simp at hr
      next =>
        rw [mem_uniqueFirst]
        constructor
        · intro h
          obtain ⟨r, hr, rfl⟩ := List.mem_map.mp h
          rw [mem_sortLe] at hr
          obtain ⟨hbest, heff⟩ := mem_of_genTopRows hr
          obtain ⟨hyel, hpeak⟩ := mem_genBestRows hbest
          refine ⟨⟨r, hyel, rfl⟩, ?_⟩
          rw [← hpeak, heff, maxEffect_genBestRows]
        · rintro ⟨⟨r, hr, rfl⟩, hpk⟩
          obtain ⟨r2, hr2, hr2g, hr2e⟩ := genBest_has_representative hr
          refine List.mem_map.mpr ⟨r2, ?_, hr2g⟩
          rw [mem_sortLe]
          unfold genTopRows
          refine List.mem_filter.mpr ⟨hr2, ?_⟩
          simp only [decide_eq_true_eq]
          rw [hr2e, maxEffect_genBestRows, hpk]

theorem map_gift_filterMap_firstPeakRow (l : List Row) :
    ∀ gl : List String, ((gl.filterMap (firstPeakRow l)).map (fun r => r.gift)) =
      gl.filter (fun g => (firstPeakRow l g).isSome)
  | [] => rfl
  | g :: gl => by
    simp only [List.filterMap_cons]
    cases hf : firstPeakRow l g with
    | none => simp [hf, map_gift_filterMap_firstPeakRow l gl]
    | some r =>
      have hg := (firstPeakRow_eq_some hf).2.1
      simp [hf, map_gift_filterMap_firstPeakRow l gl, hg]

theorem nodup_gifts_genBestRows (df : Relation) (sel : List String) (rar : RarityMap) :
    ((genBestRows df sel rar).map (fun r => r.gift)).Nodup := by
  unfold genBestRows
  rw [map_gift_filterMap_firstPeakRow]
  exact List.Nodup.filter _ (((sortLe_perm _ _).nodup_iff).mpr (nodup_uniqueFirst _))

theorem nodup_gifts_genTopRows (df : Relation) (sel : List String) (rar : RarityMap) :
    ((genTopRows df sel rar).map (fun r => r.gift)).Nodup := by
  unfold genTopRows
  exact List.Nodup.sublist (List.Sublist.map _ (List.filter_sublist _))
    (nodup_gifts_genBestRows df sel rar)

theorem count_one_of_nodup_gifts {l : List Row} (hnd : (l.map (fun r => r.gift)).Nodup)
    {r : Row} (hr : r ∈ l) : giftRowCount l r.gift = 1 := by
  induction l with
  | nil => simp at hr
  | cons a as ih =>
    rw [List.map_cons, List.nodup_cons] at hnd
    rcases List.mem_cons.mp hr with rfl | hr
    · have hnone : giftRows as r.gift = [] := by
        by_contra hne
        obtain ⟨x, hx⟩ := List.exists_mem_of_ne_nil _ hne
        rw [mem_giftRows] at hx
        exact hnd.1 (hx.2 ▸ List.mem_map.mpr ⟨x, hx.1, rfl⟩)
      unfold giftRowCount giftRows
      unfold giftRows at hnone
      rw [List.filter_cons_of_pos (by simp), hnone]
      rfl
    · have hne : ¬ a.gift = r.gift :=
        fun he => hnd.1 (he ▸ List.mem_map.mpr ⟨r, hr, rfl⟩)
      unfold giftRowCount giftRows
      rw [List.filter_cons_of_neg (by simp [hne])]
      exact ih hnd.2 hr

theorem lex1B_eq_fst (x y : Int × String) (h : x.1 = y.1) :
    lex1B x y = strLeB x.2 y.2 := by
  unfold lex1B intLexB
  rw [h]
  simp

/-- C2 (amended): the generation-candidate computation keeps one
representative row per eligible gift (the first row at the gift's peak effect,
via the groupwise idxmax), so every surviving gift has row count 1 in the top
subset; the returned gifts are exactly the eligible gifts whose peak equals
the global maximum over the eligible subset, and — the row counts being all
equal — the sort by (row count descending, gift ascending) degenerates to gift
name ascending, with one entry per distinct gift. -/
theorem C2_generation_representatives_and_order (df : Relation) (sel : List String)
    (rar : RarityMap) :
    (∀ g : String, g ∈ get_generation_candidates df sel rar ↔
      (∃ r ∈ yellowRows df sel rar, r.gift = g) ∧
        giftPeak (yellowRows df sel rar) g = maxEffect (yellowRows df sel rar)) ∧
    (∀ r ∈ genTopRows df sel rar, giftRowCount (genTopRows df sel rar) r.gift = 1) ∧
    (get_generation_candidates df sel rar).Pairwise (fun a b => strLeB a b = true) ∧
    (get_generation_candidates df sel rar).Nodup := by
  refine ⟨mem_generation_candidates_iff df sel rar, ?_, ?_, ?_⟩
  · intro r hr
    exact count_one_of_nodup_gifts (nodup_gifts_genTopRows df sel rar) hr
  · unfold get_generation_candidates
    split
    · exact List.Pairwise.nil
    · split
      · exact List.Pairwise.nil
      · split
        · exact List.Pairwise.nil
        · have hnd : (((sortLe (fun a b =>
              lex1B (genKey (genTopRows df sel rar) a) (genKey (genTopRows df sel rar) b))
              (genTopRows df sel rar)).map (fun r => r.gift))).Nodup :=
            (((sortLe_perm _ _).map _).nodup_iff).mpr (nodup_gifts_genTopRows df sel rar)
          rw [uniqueFirst_eq_self hnd, List.pairwise_map]
          have hpw := pairwise_sortLe_key (genKey (genTopRows df sel rar)) lex1B
            lex1B_trans lex1B_total (genTopRows df sel rar)
          refine hpw.imp_of_mem ?_
          intro a b ha hb hab
          rw [mem_sortLe] at ha hb
          have hca := count_one_of_nodup_gifts (nodup_gifts_genTopRows df sel rar) ha
          have hcb := count_one_of_nodup_gifts (nodup_gifts_genTopRows df sel rar) hb
          rw [lex1B_eq_fst _ _ (by simp [genKey, hca, hcb])] at hab
          exact hab
  · unfold get_generation_candidates
    split
    · exact List.Pairwise.nil
    · split
      · exact List.Pairwise.nil
      · split
        · exact List.Pairwise.nil
        · exact nodup_uniqueFirst _

/-- C2 witness: on the single tier-0 row (A, X, huge) the top subset contains
that row and its gift's row count is 1. -/
theorem C2_generation_representatives_and_order_witness :
    (⟨"A", "X", .huge⟩ : Row) ∈ genTopRows [⟨"A", "X", .huge⟩] ["A"] (fun _ => 0) ∧
      giftRowCount (genTopRows [⟨"A", "X", .huge⟩] ["A"] (fun _ => 0)) "X" = 1 :=
  ⟨by decide,
   (C2_generation_representatives_and_order [⟨"A", "X", .huge⟩] ["A"] (fun _ => 0)).2.1
     ⟨"A", "X", .huge⟩ (by decide)⟩

/-- C2 counterexample: with rows (A, P, huge), (B, P, huge), (A, G, huge), all
tier 0, and selection [A, B], the claimed computation (all peak rows kept,
sort by contender count descending then name) returns [P, G], but the code —
one idxmax row per gift, all counts 1 — returns [G, P]. -/
theorem C2_counterexample_contender_order :
    claimedGenerationCandidates [⟨"A", "P", .huge⟩, ⟨"B", "P", .huge⟩, ⟨"A", "G", .huge⟩]
        ["A", "B"] (fun _ => 0) = ["P", "G"] ∧
      get_generation_candidates [⟨"A", "P", .huge⟩, ⟨"B", "P", .huge⟩, ⟨"A", "G", .huge⟩]
        ["A", "B"] (fun _ => 0) = ["G", "P"] := by
  decide

end BaGift
